import Mathlib

/-!
Verification of the mesh cell acuteness scoring engine (`acuteness_wasm.cpp`).

Modelling conventions for the shallow embedding:
* C++ `float` coordinate arithmetic (sums, differences, products, dot products,
  squared lengths) is embedded as exact rational arithmetic over `ℚ`; the
  transcendental tail of the angle classifier (`std::sqrt`, `std::acos`) is
  embedded as exact real arithmetic over `ℝ`.
* C++ `int` is embedded as `ℤ`.  Lean's `/` on `ℤ` is Euclidean division, which
  agrees with C++ truncating division on the nonnegative operands that occur in
  the program (cell sizes and acute counts are nonnegative).
* The `size_t` arithmetic in the range check of `updateCellAcuteness`
  (`cellIdx >= cellIndices.size() - 1`, which converts the signed `cellIdx` to
  an unsigned 64-bit value and computes `size() - 1` with unsigned wraparound)
  is embedded explicitly modulo 2^64.
* `std::vector` reads (`vertices[idx]`, `cellIndices[i]`) are embedded with
  `List.getD _ _ 0`; out-of-bounds reads are undefined behaviour in the source,
  and every claim below only exercises in-bounds reads.
* `std::partial_sort` on `std::vector<std::pair<float,int>>` uses the
  lexicographic `operator<` of `std::pair`.  The candidate pairs built by the
  program have pairwise distinct second components, so that order is total and
  strict on them, and the sorted prefix produced by `partial_sort` equals the
  corresponding prefix of the unique fully sorted permutation.  The embedding
  therefore sorts with `List.insertionSort` under the reflexive closure of that
  lexicographic order and takes the prefix.
* The per-cell recomputation inside `updateCellAcuteness` is an unimplemented
  stub in the source (`int acuteAngles = 0; // ... (same logic as
  calculateCellAcuteness for single cell)`); the embedding reproduces the stub
  faithfully: `acuteAngles` stays 0.
-/

namespace AcutenessWasm

/-- `struct Vec3` of the source, with `float` fields embedded as `ℚ`. -/
structure Vec3 where
  x : ℚ
  y : ℚ
  z : ℚ
deriving DecidableEq

instance : Inhabited Vec3 := ⟨⟨0, 0, 0⟩⟩

/-- `Vec3::dot`. -/
def Vec3.dot (a b : Vec3) : ℚ := a.x * b.x + a.y * b.y + a.z * b.z

/-- `Vec3::lengthSquared`. -/
def Vec3.lengthSquared (a : Vec3) : ℚ := a.x * a.x + a.y * a.y + a.z * a.z

/-- `Vec3::operator-`. -/
def Vec3.sub (a b : Vec3) : Vec3 := ⟨a.x - b.x, a.y - b.y, a.z - b.z⟩

/-- The constant `HALF_PI = 1.5707963f` of the source, read as the exact value
of its decimal literal. -/
noncomputable def HALF_PI : ℝ := 1.5707963

/-- The clamped cosine computed by `calculateAngle` in the non-degenerate
branch: `cosTheta = dot / sqrt(len1Sq * len2Sq)` clamped to `[-1, 1]` by
`std::max(-1.0f, std::min(1.0f, cosTheta))`. -/
noncomputable def clampedCos (v1 v2 : Vec3) : ℝ :=
  max (-1) (min 1 ((v1.dot v2 : ℝ) /
    Real.sqrt ((v1.lengthSquared : ℝ) * (v2.lengthSquared : ℝ))))

/-- `calculateAngle`: returns 0 if either vector has zero squared length,
otherwise `acos` of the clamped cosine. -/
noncomputable def calculateAngle (v1 v2 : Vec3) : ℝ :=
  if v1.lengthSquared = 0 ∨ v2.lengthSquared = 0 then 0
  else Real.arccos (clampedCos v1 v2)

/-- The acute test of the inner loop of `calculateCellAcuteness`:
`angle < HALF_PI`. -/
noncomputable def isAcuteAngleTest (v1 v2 : Vec3) : Bool :=
  @ite Bool (calculateAngle v1 v2 < HALF_PI) (Classical.propDecidable _) true false

/-- The vertex whose three floats start at flat index `idx`:
`Vec3(vertices[idx], vertices[idx+1], vertices[idx+2])`. -/
def vecAt (vertices : List ℚ) (idx : ℤ) : Vec3 :=
  ⟨vertices.getD idx.toNat 0, vertices.getD (idx + 1).toNat 0,
    vertices.getD (idx + 2).toNat 0⟩

/-- The candidate list built for center vertex `v` of the cell starting at flat
offset `start`: for every `other ≠ v` in `0 ..< cellSize`, in that order, the
pair `(squared distance to the center, other)`. -/
def distList (vertices : List ℚ) (start cellSize v : ℤ) : List (ℚ × ℤ) :=
  ((List.range cellSize.toNat).filter (fun (o : ℕ) => decide ((o : ℤ) ≠ v))).map
    (fun (o : ℕ) =>
      (((vecAt vertices (start + (o : ℤ) * 3)).sub
          (vecAt vertices (start + v * 3))).lengthSquared, (o : ℤ)))

/-- Reflexive closure of the lexicographic `operator<` of
`std::pair<float,int>`, used to order the candidate list. -/
def pairLe (a b : ℚ × ℤ) : Prop := a.1 < b.1 ∨ (a.1 = b.1 ∧ a.2 ≤ b.2)

instance : DecidableRel pairLe := fun a b =>
  inferInstanceAs (Decidable (a.1 < b.1 ∨ (a.1 = b.1 ∧ a.2 ≤ b.2)))

instance : IsTotal (ℚ × ℤ) pairLe where
  total a b := by
    rcases lt_trichotomy a.1 b.1 with h | h | h
    · exact Or.inl (Or.inl h)
    · rcases le_total a.2 b.2 with h2 | h2
      · exact Or.inl (Or.inr ⟨h, h2⟩)
      · exact Or.inr (Or.inr ⟨h.symm, h2⟩)
    · exact Or.inr (Or.inl h)

instance : IsTrans (ℚ × ℤ) pairLe where
  trans a b c hab hbc := by
    rcases hab with h | ⟨he, h2⟩
    · rcases hbc with h' | ⟨he', _⟩
      · exact Or.inl (h.trans h')
      · exact Or.inl (he' ▸ h)
    · rcases hbc with h' | ⟨he', h2'⟩
      · exact Or.inl (he ▸ h')
      · exact Or.inr ⟨he.trans he', h2.trans h2'⟩

/-- `numNeighbors = std::min(maxNeighbors, (int)distances.size())`. -/
def numNeighborsOf (maxNeighbors : ℤ) (ds : List (ℚ × ℤ)) : ℤ :=
  min maxNeighbors (ds.length : ℤ)

/-- The sorted neighbor prefix produced by `std::partial_sort` followed by
taking the first `numNeighbors` entries. -/
def selectNeighbors (vertices : List ℚ) (start cellSize maxNeighbors v : ℤ) :
    List (ℚ × ℤ) :=
  (List.insertionSort pairLe (distList vertices start cellSize v)).take
    (numNeighborsOf maxNeighbors (distList vertices start cellSize v)).toNat

/-- The displacement vectors `vertices[neighbor] - center` for the selected
neighbors, in selection order (`vec1`/`vec2` of the inner loops). -/
def neighborVecs (vertices : List ℚ) (start cellSize maxNeighbors v : ℤ) :
    List Vec3 :=
  (selectNeighbors vertices start cellSize maxNeighbors v).map
    (fun p => (vecAt vertices (start + p.2 * 3)).sub
      (vecAt vertices (start + v * 3)))

/-- The double loop `for j; for k = j+1` counting acute pairs among a list of
displacement vectors. -/
def pairCountAux (acute : Vec3 → Vec3 → Bool) : List Vec3 → ℕ
  | [] => 0
  | a :: rest => rest.countP (fun b => acute a b) + pairCountAux acute rest

/-- The accumulated `acuteAngles` over all vertices of one cell. -/
def cellAcuteCount (acute : Vec3 → Vec3 → Bool) (vertices : List ℚ)
    (start cellSize maxNeighbors : ℤ) : ℕ :=
  ((List.range cellSize.toNat).map
    (fun (v : ℕ) => pairCountAux acute
      (neighborVecs vertices start cellSize maxNeighbors (v : ℤ)))).sum

/-- The per-cell body of `calculateCellAcuteness`: compute
`cellSize = (end - start) / 3`, short-circuit to 0 below 4 vertices, otherwise
`acuteAngles / cellSize`. -/
def scoreCell (acute : Vec3 → Vec3 → Bool) (vertices : List ℚ)
    (start endIdx maxNeighbors : ℤ) : ℤ :=
  if (endIdx - start) / 3 < 4 then 0
  else (cellAcuteCount acute vertices start ((endIdx - start) / 3) maxNeighbors : ℤ) /
    ((endIdx - start) / 3)

/-- `calculateCellAcuteness`, parameterized by the acute test of the innermost
comparison.  The loop `for (size_t i = 0; i < cellIndices.size() - 1; i++)` is
embedded with the truncated subtraction `cellIndices.length - 1` (the
`CellTable` contract guarantees at least one offset, so the unsigned
wraparound of `size() - 1` on an empty vector is never exercised). -/
def calculateCellAcutenessW (acute : Vec3 → Vec3 → Bool) (vertices : List ℚ)
    (cellIndices : List ℤ) (maxNeighbors : ℤ) : List ℤ :=
  (List.range (cellIndices.length - 1)).map
    (fun i => scoreCell acute vertices (cellIndices.getD i 0)
      (cellIndices.getD (i + 1) 0) maxNeighbors)

/-- `calculateCellAcuteness` of the source (with its default
`maxNeighbors = 6` passed explicitly at call sites). -/
noncomputable def calculateCellAcuteness (vertices : List ℚ)
    (cellIndices : List ℤ) (maxNeighbors : ℤ) : List ℤ :=
  calculateCellAcutenessW isAcuteAngleTest vertices cellIndices maxNeighbors

/-- Conversion of the signed `cellIdx` to `size_t` performed implicitly by the
comparison `cellIdx >= cellIndices.size() - 1` (sign extension to 64 bits,
reinterpreted as unsigned, i.e. reduction modulo 2^64). -/
def toSizeT (i : ℤ) : ℕ := (i % (2 ^ 64 : ℤ)).toNat

/-- `cellIndices.size() - 1` computed in `size_t` arithmetic, with unsigned
wraparound when the vector is empty. -/
def sizeTPred (n : ℕ) : ℕ := (n + 2 ^ 64 - 1) % 2 ^ 64

/-- One iteration of the loop of `updateCellAcuteness`.  The guard
`if (cellIdx >= cellIndices.size() - 1) continue;` is the skip condition; the
per-cell recomputation is the source's unimplemented stub, so `acuteAngles`
remains 0 in the `cellSize >= 4` branch. -/
def updateStep (vertices : List ℚ) (cellIndices : List ℤ) (scores : List ℤ)
    (cellIdx : ℤ) : List ℤ :=
  if sizeTPred cellIndices.length ≤ toSizeT cellIdx then scores
  else if (cellIndices.getD (cellIdx.toNat + 1) 0 - cellIndices.getD cellIdx.toNat 0) / 3 < 4 then
    scores.set cellIdx.toNat 0
  else
    -- the numerator is the stub's `acuteAngles`, which the source never
    -- increments before the write
    scores.set cellIdx.toNat
      ((0 : ℤ) / ((cellIndices.getD (cellIdx.toNat + 1) 0 - cellIndices.getD cellIdx.toNat 0) / 3))

/-- `updateCellAcuteness` of the source: fold the per-changed-cell step over
the changed-cell list, mutating `previousScores` in place. -/
def updateCellAcuteness (vertices : List ℚ) (cellIndices : List ℤ)
    (changedCells : List ℤ) (previousScores : List ℤ) : List ℤ :=
  changedCells.foldl (updateStep vertices cellIndices) previousScores

/-- The unit-square vertex buffer of the spec's concrete scenario A:
A=(0,0,0), B=(1,0,0), C=(0,1,0), D=(1,1,0), one cell. -/
def squareVerts : List ℚ := [0, 0, 0, 1, 0, 0, 0, 1, 0, 1, 1, 0]

/-- Spec-side count (§4.3): the number of unordered pairs of a vertex's
selected neighbors that the acute test classifies acute.  The unordered pairs
of the list of neighbor displacement vectors are its length-2 sublists. -/
def specPairTotal (acute : Vec3 → Vec3 → Bool) (vecs : List Vec3) : ℕ :=
  (vecs.sublistsLen 2).countP
    (fun s => match s with | [u, w] => acute u w | _ => false)

/-- Spec-side total (§4.3): the total acute-angle count across all vertices in
the cell, each vertex contributing only pairs of its own selected neighbors. -/
def specCellTotal (acute : Vec3 → Vec3 → Bool) (vertices : List ℚ)
    (start cellSize maxNeighbors : ℤ) : ℕ :=
  ∑ v ∈ Finset.range cellSize.toNat,
    specPairTotal acute (neighborVecs vertices start cellSize maxNeighbors (v : ℤ))

/-! ### Analysis of the angle classifier -/

lemma lengthSquared_nonneg (v : Vec3) : 0 ≤ v.lengthSquared := by
  unfold Vec3.lengthSquared
  have hx := mul_self_nonneg v.x
  have hy := mul_self_nonneg v.y
  have hz := mul_self_nonneg v.z
  linarith

lemma isAcuteAngleTest_true_iff (v1 v2 : Vec3) :
    isAcuteAngleTest v1 v2 = true ↔ calculateAngle v1 v2 < HALF_PI := by
  unfold isAcuteAngleTest
  split <;> simp_all

lemma isAcuteAngleTest_false_iff (v1 v2 : Vec3) :
    isAcuteAngleTest v1 v2 = false ↔ HALF_PI ≤ calculateAngle v1 v2 := by
  unfold isAcuteAngleTest
  split <;> simp_all

lemma HALF_PI_lt_pi_div_two : HALF_PI < Real.pi / 2 := by
  have h := Real.pi_gt_d20
  unfold HALF_PI
  norm_num at h ⊢
  linarith

lemma pi_div_two_sub_HALF_PI_lt : Real.pi / 2 - HALF_PI < 1 / 2 ^ 23 := by
  have h := Real.pi_lt_d20
  unfold HALF_PI
  norm_num at h ⊢
  linarith

lemma clampedCos_le_one (v1 v2 : Vec3) : clampedCos v1 v2 ≤ 1 := by
  unfold clampedCos
  exact max_le (by norm_num) (min_le_left _ _)

lemma neg_one_le_clampedCos (v1 v2 : Vec3) : -1 ≤ clampedCos v1 v2 :=
  le_max_left _ _

/-- A pair with nonpositive dot product (angle at least 90 degrees) is not
counted acute, because `HALF_PI` does not exceed the true `π/2`. -/
lemma not_acute_of_dot_nonpos (v1 v2 : Vec3) (h1 : v1.lengthSquared ≠ 0)
    (h2 : v2.lengthSquared ≠ 0) (hd : v1.dot v2 ≤ 0) :
    isAcuteAngleTest v1 v2 = false := by
  rw [isAcuteAngleTest_false_iff]
  unfold calculateAngle
  rw [if_neg (by tauto)]
  have hc : clampedCos v1 v2 ≤ 0 := by
    unfold clampedCos
    refine max_le (by norm_num) (le_trans (min_le_right _ _) ?_)
    refine div_nonpos_of_nonpos_of_nonneg ?_ (Real.sqrt_nonneg _)
    exact_mod_cast hd
  have harcsin : Real.arcsin (clampedCos v1 v2) ≤ 0 := Real.arcsin_nonpos.mpr hc
  rw [Real.arccos_eq_pi_div_two_sub_arcsin]
  have := HALF_PI_lt_pi_div_two
  linarith

/-- A pair whose cosine is at least 1/2 (angle at most 60 degrees) is counted
acute. -/
lemma acute_of_cos_ge_half (v1 v2 : Vec3) (h1 : v1.lengthSquared ≠ 0)
    (h2 : v2.lengthSquared ≠ 0) (hd : 0 ≤ v1.dot v2)
    (hsq : v1.lengthSquared * v2.lengthSquared ≤ 4 * (v1.dot v2 * v1.dot v2)) :
    isAcuteAngleTest v1 v2 = true := by
  rw [isAcuteAngleTest_true_iff]
  unfold calculateAngle
  rw [if_neg (by tauto)]
  have hp1 : (0:ℝ) < (v1.lengthSquared : ℝ) :=
    mod_cast lt_of_le_of_ne (lengthSquared_nonneg v1) (Ne.symm h1)
  have hp2 : (0:ℝ) < (v2.lengthSquared : ℝ) :=
    mod_cast lt_of_le_of_ne (lengthSquared_nonneg v2) (Ne.symm h2)
  have hd' : (0:ℝ) ≤ (v1.dot v2 : ℝ) := by exact_mod_cast hd
  have hsq' : (v1.lengthSquared : ℝ) * (v2.lengthSquared : ℝ) ≤
      (2 * (v1.dot v2 : ℝ)) ^ 2 := by
    have : ((v1.lengthSquared * v2.lengthSquared : ℚ) : ℝ) ≤
        ((4 * (v1.dot v2 * v1.dot v2) : ℚ) : ℝ) := by exact_mod_cast hsq
    push_cast at this
    nlinarith [this]
  have hroot : Real.sqrt ((v1.lengthSquared : ℝ) * (v2.lengthSquared : ℝ)) ≤
      2 * (v1.dot v2 : ℝ) := by
    calc Real.sqrt ((v1.lengthSquared : ℝ) * (v2.lengthSquared : ℝ))
        ≤ Real.sqrt ((2 * (v1.dot v2 : ℝ)) ^ 2) := Real.sqrt_le_sqrt hsq'
      _ = 2 * (v1.dot v2 : ℝ) := Real.sqrt_sq (by linarith)
  have hdpos : (0:ℝ) < (v1.dot v2 : ℝ) := by
    rcases eq_or_lt_of_le hd' with h | h
    · exfalso
      have := mul_pos hp1 hp2
      rw [← h] at hsq'
      nlinarith
    · exact h
  have hsqrtpos : (0:ℝ) <
      Real.sqrt ((v1.lengthSquared : ℝ) * (v2.lengthSquared : ℝ)) :=
    Real.sqrt_pos.mpr (mul_pos hp1 hp2)
  have hcos : (1:ℝ) / 2 ≤ clampedCos v1 v2 := by
    unfold clampedCos
    refine le_trans ?_ (le_max_right _ _)
    refine le_min (by norm_num) ?_
    rw [le_div_iff₀ hsqrtpos]
    linarith
  have harccos : Real.arccos (clampedCos v1 v2) ≤ Real.arccos (1 / 2) := by
    rw [Real.arccos_eq_pi_div_two_sub_arcsin, Real.arccos_eq_pi_div_two_sub_arcsin]
    have := Real.monotone_arcsin hcos
    linarith
  have hval : Real.arccos ((1:ℝ) / 2) = Real.pi / 3 := by
    rw [show ((1:ℝ)/2) = Real.cos (Real.pi / 3) from (Real.cos_pi_div_three).symm,
      Real.arccos_cos (by positivity) (by linarith [Real.pi_pos])]
  have hfin : Real.pi / 3 < HALF_PI := by
    have h4 := Real.pi_lt_four
    unfold HALF_PI
    norm_num
    linarith
  calc Real.arccos (clampedCos v1 v2) ≤ Real.arccos (1 / 2) := harccos
    _ = Real.pi / 3 := hval
    _ < HALF_PI := hfin

/-! ### Concrete evaluation: the unit-square cell of scenario A -/

lemma vtx_sq_A : vecAt squareVerts 0 = ⟨0, 0, 0⟩ := by decide

lemma vtx_sq_B : vecAt squareVerts 3 = ⟨1, 0, 0⟩ := by decide

lemma vtx_sq_C : vecAt squareVerts 6 = ⟨0, 1, 0⟩ := by decide

lemma vtx_sq_D : vecAt squareVerts 9 = ⟨1, 1, 0⟩ := by decide

lemma distList_sq_0 : distList squareVerts 0 4 0 = [(1, 1), (1, 2), (2, 3)] := by
  unfold distList
  rw [show ((List.range (4:ℤ).toNat).filter (fun (o : ℕ) => decide ((o:ℤ) ≠ 0))) =
    [1, 2, 3] from by decide]
  simp only [List.map_cons, List.map_nil]
  norm_num [vtx_sq_A, vtx_sq_B, vtx_sq_C, vtx_sq_D, Vec3.sub, Vec3.lengthSquared]

lemma distList_sq_1 : distList squareVerts 0 4 1 = [(1, 0), (2, 2), (1, 3)] := by
  unfold distList
  rw [show ((List.range (4:ℤ).toNat).filter (fun (o : ℕ) => decide ((o:ℤ) ≠ 1))) =
    [0, 2, 3] from by decide]
  simp only [List.map_cons, List.map_nil]
  norm_num [vtx_sq_A, vtx_sq_B, vtx_sq_C, vtx_sq_D, Vec3.sub, Vec3.lengthSquared]

lemma distList_sq_2 : distList squareVerts 0 4 2 = [(1, 0), (2, 1), (1, 3)] := by
  unfold distList
  rw [show ((List.range (4:ℤ).toNat).filter (fun (o : ℕ) => decide ((o:ℤ) ≠ 2))) =
    [0, 1, 3] from by decide]
  simp only [List.map_cons, List.map_nil]
  norm_num [vtx_sq_A, vtx_sq_B, vtx_sq_C, vtx_sq_D, Vec3.sub, Vec3.lengthSquared]

lemma distList_sq_3 : distList squareVerts 0 4 3 = [(2, 0), (1, 1), (1, 2)] := by
  unfold distList
  rw [show ((List.range (4:ℤ).toNat).filter (fun (o : ℕ) => decide ((o:ℤ) ≠ 3))) =
    [0, 1, 2] from by decide]
  simp only [List.map_cons, List.map_nil]
  norm_num [vtx_sq_A, vtx_sq_B, vtx_sq_C, vtx_sq_D, Vec3.sub, Vec3.lengthSquared]

lemma select_sq_0 : selectNeighbors squareVerts 0 4 6 0 = [(1, 1), (1, 2), (2, 3)] := by
  unfold selectNeighbors numNeighborsOf
  rw [distList_sq_0]
  decide

lemma select_sq_1 : selectNeighbors squareVerts 0 4 6 1 = [(1, 0), (1, 3), (2, 2)] := by
  unfold selectNeighbors numNeighborsOf
  rw [distList_sq_1]
  decide

lemma select_sq_2 : selectNeighbors squareVerts 0 4 6 2 = [(1, 0), (1, 3), (2, 1)] := by
  unfold selectNeighbors numNeighborsOf
  rw [distList_sq_2]
  decide

lemma select_sq_3 : selectNeighbors squareVerts 0 4 6 3 = [(1, 1), (1, 2), (2, 0)] := by
  unfold selectNeighbors numNeighborsOf
  rw [distList_sq_3]
  decide

lemma nvecs_sq_0 : neighborVecs squareVerts 0 4 6 0 =
    [⟨1, 0, 0⟩, ⟨0, 1, 0⟩, ⟨1, 1, 0⟩] := by
  unfold neighborVecs
  rw [select_sq_0]
  simp only [List.map_cons, List.map_nil]
  norm_num [vtx_sq_A, vtx_sq_B, vtx_sq_C, vtx_sq_D, Vec3.sub]

lemma nvecs_sq_1 : neighborVecs squareVerts 0 4 6 1 =
    [⟨-1, 0, 0⟩, ⟨0, 1, 0⟩, ⟨-1, 1, 0⟩] := by
  unfold neighborVecs
  rw [select_sq_1]
  simp only [List.map_cons, List.map_nil]
  norm_num [vtx_sq_A, vtx_sq_B, vtx_sq_C, vtx_sq_D, Vec3.sub]

lemma nvecs_sq_2 : neighborVecs squareVerts 0 4 6 2 =
    [⟨0, -1, 0⟩, ⟨1, 0, 0⟩, ⟨1, -1, 0⟩] := by
  unfold neighborVecs
  rw [select_sq_2]
  simp only [List.map_cons, List.map_nil]
  norm_num [vtx_sq_A, vtx_sq_B, vtx_sq_C, vtx_sq_D, Vec3.sub]

lemma nvecs_sq_3 : neighborVecs squareVerts 0 4 6 3 =
    [⟨0, -1, 0⟩, ⟨-1, 0, 0⟩, ⟨-1, -1, 0⟩] := by
  unfold neighborVecs
  rw [select_sq_3]
  simp only [List.map_cons, List.map_nil]
  norm_num [vtx_sq_A, vtx_sq_B, vtx_sq_C, vtx_sq_D, Vec3.sub]

/-- The twelve classifier decisions of scenario A: the two 45-degree pairs at
each vertex are acute, the axis-aligned 90-degree pair is not. -/
lemma acute_sq_01 : isAcuteAngleTest ⟨1, 0, 0⟩ ⟨0, 1, 0⟩ = false :=
  not_acute_of_dot_nonpos _ _ (by norm_num [Vec3.lengthSquared])
    (by norm_num [Vec3.lengthSquared]) (by norm_num [Vec3.dot])

lemma acute_sq_02 : isAcuteAngleTest ⟨1, 0, 0⟩ ⟨1, 1, 0⟩ = true :=
  acute_of_cos_ge_half _ _ (by norm_num [Vec3.lengthSquared])
    (by norm_num [Vec3.lengthSquared]) (by norm_num [Vec3.dot])
    (by norm_num [Vec3.dot, Vec3.lengthSquared])

lemma acute_sq_03 : isAcuteAngleTest ⟨0, 1, 0⟩ ⟨1, 1, 0⟩ = true :=
  acute_of_cos_ge_half _ _ (by norm_num [Vec3.lengthSquared])
    (by norm_num [Vec3.lengthSquared]) (by norm_num [Vec3.dot])
    (by norm_num [Vec3.dot, Vec3.lengthSquared])

lemma acute_sq_11 : isAcuteAngleTest ⟨-1, 0, 0⟩ ⟨0, 1, 0⟩ = false :=
  not_acute_of_dot_nonpos _ _ (by norm_num [Vec3.lengthSquared])
    (by norm_num [Vec3.lengthSquared]) (by norm_num [Vec3.dot])

lemma acute_sq_12 : isAcuteAngleTest ⟨-1, 0, 0⟩ ⟨-1, 1, 0⟩ = true :=
  acute_of_cos_ge_half _ _ (by norm_num [Vec3.lengthSquared])
    (by norm_num [Vec3.lengthSquared]) (by norm_num [Vec3.dot])
    (by norm_num [Vec3.dot, Vec3.lengthSquared])

lemma acute_sq_13 : isAcuteAngleTest ⟨0, 1, 0⟩ ⟨-1, 1, 0⟩ = true :=
  acute_of_cos_ge_half _ _ (by norm_num [Vec3.lengthSquared])
    (by norm_num [Vec3.lengthSquared]) (by norm_num [Vec3.dot])
    (by norm_num [Vec3.dot, Vec3.lengthSquared])

lemma acute_sq_21 : isAcuteAngleTest ⟨0, -1, 0⟩ ⟨1, 0, 0⟩ = false :=
  not_acute_of_dot_nonpos _ _ (by norm_num [Vec3.lengthSquared])
    (by norm_num [Vec3.lengthSquared]) (by norm_num [Vec3.dot])

lemma acute_sq_22 : isAcuteAngleTest ⟨0, -1, 0⟩ ⟨1, -1, 0⟩ = true :=
  acute_of_cos_ge_half _ _ (by norm_num [Vec3.lengthSquared])
    (by norm_num [Vec3.lengthSquared]) (by norm_num [Vec3.dot])
    (by norm_num [Vec3.dot, Vec3.lengthSquared])

lemma acute_sq_23 : isAcuteAngleTest ⟨1, 0, 0⟩ ⟨1, -1, 0⟩ = true :=
  acute_of_cos_ge_half _ _ (by norm_num [Vec3.lengthSquared])
    (by norm_num [Vec3.lengthSquared]) (by norm_num [Vec3.dot])
    (by norm_num [Vec3.dot, Vec3.lengthSquared])

lemma acute_sq_31 : isAcuteAngleTest ⟨0, -1, 0⟩ ⟨-1, 0, 0⟩ = false :=
  not_acute_of_dot_nonpos _ _ (by norm_num [Vec3.lengthSquared])
    (by norm_num [Vec3.lengthSquared]) (by norm_num [Vec3.dot])

lemma acute_sq_32 : isAcuteAngleTest ⟨0, -1, 0⟩ ⟨-1, -1, 0⟩ = true :=
  acute_of_cos_ge_half _ _ (by norm_num [Vec3.lengthSquared])
    (by norm_num [Vec3.lengthSquared]) (by norm_num [Vec3.dot])
    (by norm_num [Vec3.dot, Vec3.lengthSquared])

lemma acute_sq_33 : isAcuteAngleTest ⟨-1, 0, 0⟩ ⟨-1, -1, 0⟩ = true :=
  acute_of_cos_ge_half _ _ (by norm_num [Vec3.lengthSquared])
    (by norm_num [Vec3.lengthSquared]) (by norm_num [Vec3.dot])
    (by norm_num [Vec3.dot, Vec3.lengthSquared])

lemma pairCount_sq_0 : pairCountAux isAcuteAngleTest (neighborVecs squareVerts 0 4 6 0) = 2 := by
  rw [nvecs_sq_0]
  simp [pairCountAux, List.countP_cons, List.countP_nil,
    acute_sq_01, acute_sq_02, acute_sq_03]

lemma pairCount_sq_1 : pairCountAux isAcuteAngleTest (neighborVecs squareVerts 0 4 6 1) = 2 := by
  rw [nvecs_sq_1]
  simp [pairCountAux, List.countP_cons, List.countP_nil,
    acute_sq_11, acute_sq_12, acute_sq_13]

lemma pairCount_sq_2 : pairCountAux isAcuteAngleTest (neighborVecs squareVerts 0 4 6 2) = 2 := by
  rw [nvecs_sq_2]
  simp [pairCountAux, List.countP_cons, List.countP_nil,
    acute_sq_21, acute_sq_22, acute_sq_23]

lemma pairCount_sq_3 : pairCountAux isAcuteAngleTest (neighborVecs squareVerts 0 4 6 3) = 2 := by
  rw [nvecs_sq_3]
  simp [pairCountAux, List.countP_cons, List.countP_nil,
    acute_sq_31, acute_sq_32, acute_sq_33]

lemma cellAcuteCount_sq : cellAcuteCount isAcuteAngleTest squareVerts 0 4 6 = 8 := by
  unfold cellAcuteCount
  rw [show List.range (4:ℤ).toNat = [0, 1, 2, 3] from by decide]
  simp only [List.map_cons, List.map_nil, List.sum_cons, List.sum_nil]
  norm_num [pairCount_sq_0, pairCount_sq_1, pairCount_sq_2, pairCount_sq_3]

lemma scoreCell_sq : scoreCell isAcuteAngleTest squareVerts 0 12 6 = 2 := by
  unfold scoreCell
  norm_num [cellAcuteCount_sq]

/-- Full pass on the unit-square cell: score 2. -/
lemma calc_square : calculateCellAcuteness squareVerts [0, 12] 6 = [2] := by
  unfold calculateCellAcuteness calculateCellAcutenessW
  rw [show (([0, 12] : List ℤ).length - 1) = 1 from by decide,
    show List.range 1 = [0] from by decide]
  simp only [List.map_cons, List.map_nil]
  rw [show (([0, 12] : List ℤ).getD 0 0) = 0 from by decide,
    show (([0, 12] : List ℤ).getD (0 + 1) 0) = 12 from by decide, scoreCell_sq]

/-! ### The incremental update path -/

lemma updateStep_skip (vertices : List ℚ) (cellIndices : List ℤ) (scores : List ℤ)
    (cellIdx : ℤ) (h : sizeTPred cellIndices.length ≤ toSizeT cellIdx) :
    updateStep vertices cellIndices scores cellIdx = scores := by
  unfold updateStep
  rw [if_pos h]

lemma updateCellAcuteness_skip_all (vertices : List ℚ) (cellIndices : List ℤ) :
    ∀ (changedCells : List ℤ) (previousScores : List ℤ),
      (∀ c ∈ changedCells, sizeTPred cellIndices.length ≤ toSizeT c) →
      updateCellAcuteness vertices cellIndices changedCells previousScores =
        previousScores
  | [], _, _ => rfl
  | c :: rest, prev, h => by
    unfold updateCellAcuteness
    rw [List.foldl_cons, updateStep_skip _ _ _ _ (h c (List.mem_cons_self _ _))]
    exact updateCellAcuteness_skip_all vertices cellIndices rest prev
      (fun d hd => h d (List.mem_cons_of_mem _ hd))

lemma updateCellAcuteness_cons (vertices : List ℚ) (cellIndices : List ℤ)
    (c : ℤ) (rest : List ℤ) (scores : List ℤ) :
    updateCellAcuteness vertices cellIndices (c :: rest) scores =
      updateCellAcuteness vertices cellIndices rest
        (updateStep vertices cellIndices scores c) := by
  unfold updateCellAcuteness
  rw [List.foldl_cons]

/-- Entries of the changed list whose iteration is a skip can be removed
without changing the result of the update, even when the list mixes them with
in-range indices. -/
lemma update_filter_skipped (vertices : List ℚ) (cellIndices : List ℤ)
    (p : ℤ → Bool) :
    ∀ (cs : List ℤ) (scores : List ℤ),
      (∀ c ∈ cs, p c = false → sizeTPred cellIndices.length ≤ toSizeT c) →
      updateCellAcuteness vertices cellIndices cs scores =
        updateCellAcuteness vertices cellIndices (cs.filter p) scores
  | [], _, _ => rfl
  | c :: rest, scores, hp => by
    have hrest : ∀ d ∈ rest, p d = false →
        sizeTPred cellIndices.length ≤ toSizeT d :=
      fun d hd => hp d (List.mem_cons_of_mem _ hd)
    by_cases hc : p c = true
    · rw [updateCellAcuteness_cons, List.filter_cons, if_pos (by simp [hc]),
        updateCellAcuteness_cons]
      exact update_filter_skipped vertices cellIndices p rest
        (updateStep vertices cellIndices scores c) hrest
    · have hc' : p c = false := by simpa using hc
      rw [updateCellAcuteness_cons,
        updateStep_skip _ _ _ _ (hp c (List.mem_cons_self _ _) hc'),
        List.filter_cons, if_neg (by simp [hc'])]
      exact update_filter_skipped vertices cellIndices p rest scores hrest

lemma updateStep_length (vertices : List ℚ) (cellIndices : List ℤ)
    (scores : List ℤ) (cellIdx : ℤ) :
    (updateStep vertices cellIndices scores cellIdx).length = scores.length := by
  unfold updateStep
  split_ifs <;> simp

/-- Every write the (stubbed) update performs stores the value 0, so a slot
already holding 0 keeps holding 0. -/
lemma updateStep_preserves_zero (vertices : List ℚ) (cellIndices : List ℤ)
    (scores : List ℤ) (cellIdx : ℤ) (i : ℕ) (h : scores[i]? = some 0) :
    (updateStep vertices cellIndices scores cellIdx)[i]? = some 0 := by
  have hi : i < scores.length := (List.getElem?_eq_some.mp h).1
  unfold updateStep
  split_ifs
  · exact h
  · by_cases hij : cellIdx.toNat = i
    · subst hij
      simp [List.getElem?_set, hi]
    · simp only [List.getElem?_set, if_neg hij]
      exact h
  · by_cases hij : cellIdx.toNat = i
    · subst hij
      simp [List.getElem?_set, hi, Int.zero_ediv]
    · simp only [List.getElem?_set, if_neg hij]
      exact h

lemma foldl_update_preserves_zero (vertices : List ℚ) (cellIndices : List ℤ) :
    ∀ (cs : List ℤ) (scores : List ℤ) (i : ℕ), scores[i]? = some 0 →
      (cs.foldl (updateStep vertices cellIndices) scores)[i]? = some 0
  | [], _, _, h => h
  | c :: rest, scores, i, h => by
    rw [List.foldl_cons]
    exact foldl_update_preserves_zero vertices cellIndices rest _ i
      (updateStep_preserves_zero vertices cellIndices scores c i h)

/-- Processing an in-range cell index always writes 0 into its slot (for a
small cell via the short circuit, otherwise via the stub `acuteAngles = 0`). -/
lemma updateStep_writes_zero (vertices : List ℚ) (cellIndices : List ℤ)
    (scores : List ℤ) (i : ℕ)
    (hskip : ¬ sizeTPred cellIndices.length ≤ toSizeT (i : ℤ))
    (hi : i < scores.length) :
    (updateStep vertices cellIndices scores (i : ℤ))[i]? = some 0 := by
  unfold updateStep
  rw [if_neg hskip]
  have ht : ((i : ℤ)).toNat = i := Int.toNat_natCast i
  split_ifs <;> rw [ht] <;> simp [List.getElem?_set, hi, Int.zero_ediv]

lemma update_writes_zero (vertices : List ℚ) (cellIndices : List ℤ) :
    ∀ (cs : List ℤ) (prev : List ℤ) (i : ℕ), (i : ℤ) ∈ cs →
      (¬ sizeTPred cellIndices.length ≤ toSizeT (i : ℤ)) → i < prev.length →
      (updateCellAcuteness vertices cellIndices cs prev)[i]? = some 0
  | c :: rest, prev, i, hmem, hskip, hlen => by
    unfold updateCellAcuteness
    rw [List.foldl_cons]
    by_cases hc : c = (i : ℤ)
    · subst hc
      exact foldl_update_preserves_zero vertices cellIndices rest _ i
        (updateStep_writes_zero vertices cellIndices prev i hskip hlen)
    · have hmem' : (i : ℤ) ∈ rest := by
        rcases List.mem_cons.mp hmem with h | h
        · exact absurd h.symm hc
        · exact h
      exact update_writes_zero vertices cellIndices rest _ i hmem' hskip
        (by rw [updateStep_length]; exact hlen)

/-- The full pass maps each of the `length - 1` adjacent offset pairs to its
cell score. -/
lemma calculateCellAcutenessW_getElem (acute : Vec3 → Vec3 → Bool)
    (vertices : List ℚ) (cellIndices : List ℤ) (maxNeighbors : ℤ) (i : ℕ)
    (hi : i < cellIndices.length - 1) :
    (calculateCellAcutenessW acute vertices cellIndices maxNeighbors)[i]? =
      some (scoreCell acute vertices (cellIndices.getD i 0)
        (cellIndices.getD (i + 1) 0) maxNeighbors) := by
  unfold calculateCellAcutenessW
  rw [List.getElem?_map, List.getElem?_range hi]
  rfl

/-! ### The double loop counts exactly the unordered neighbor pairs -/

lemma pairCountAux_eq_specPairTotal (acute : Vec3 → Vec3 → Bool) :
    ∀ vecs : List Vec3, pairCountAux acute vecs = specPairTotal acute vecs
  | [] => rfl
  | a :: rest => by
    show rest.countP (fun b => acute a b) + pairCountAux acute rest = _
    rw [pairCountAux_eq_specPairTotal acute rest]
    unfold specPairTotal
    rw [List.sublistsLen_succ_cons, List.countP_append]
    have hmap : ((rest.sublistsLen 1).map (a :: ·)).countP
        (fun s => match s with | [u, w] => acute u w | _ => false) =
        rest.countP (fun b => acute a b) := by
      rw [List.countP_map, List.sublistsLen_one, List.countP_map,
        List.countP_reverse]
      exact List.countP_congr (fun b _ => Iff.rfl)
    rw [hmap]
    simp only [show (1 + 1 : ℕ) = 2 from rfl]
    omega

lemma sum_map_range_eq (f : ℕ → ℕ) :
    ∀ n : ℕ, ((List.range n).map f).sum = ∑ v ∈ Finset.range n, f v
  | 0 => by simp
  | n + 1 => by
    rw [List.range_succ, List.map_append, List.sum_append, Finset.sum_range_succ,
      sum_map_range_eq f n]
    simp

lemma cellAcuteCount_eq_specCellTotal (acute : Vec3 → Vec3 → Bool)
    (vertices : List ℚ) (start cellSize maxNeighbors : ℤ) :
    cellAcuteCount acute vertices start cellSize maxNeighbors =
      specCellTotal acute vertices start cellSize maxNeighbors := by
  unfold cellAcuteCount specCellTotal
  rw [sum_map_range_eq]
  exact Finset.sum_congr rfl fun v _ => pairCountAux_eq_specPairTotal acute _

/-! ### Properties of the candidate list and the selected prefix -/

lemma length_filter_ne_range : ∀ (m v₀ : ℕ), v₀ < m →
    ((List.range m).filter (fun o => decide (o ≠ v₀))).length = m - 1
  | 0, _, h => absurd h (Nat.not_lt_zero _)
  | m + 1, v₀, h => by
    rw [List.range_succ, List.filter_append, List.length_append]
    rcases Nat.lt_or_ge v₀ m with hv | hv
    · rw [length_filter_ne_range m v₀ hv]
      have hm : decide (m ≠ v₀) = true := by
        simp only [decide_eq_true_eq]
        omega
      simp only [List.filter_cons, hm, if_pos, List.filter_nil, List.length_cons,
        List.length_nil]
      omega
    · have hveq : v₀ = m := by omega
      subst hveq
      rw [List.filter_eq_self.mpr (fun a ha => by
        simp only [List.mem_range] at ha
        simp only [decide_eq_true_eq]
        omega)]
      have hm : decide (v₀ ≠ v₀) = false := by simp
      simp only [List.filter_cons, hm, List.filter_nil, List.length_range,
        List.length_nil]
      simp

lemma distList_length (vertices : List ℚ) (start cellSize v : ℤ)
    (hv0 : 0 ≤ v) (hv : v < cellSize) :
    (distList vertices start cellSize v).length = (cellSize - 1).toNat := by
  unfold distList
  rw [List.length_map]
  have hcast : ∀ o ∈ List.range cellSize.toNat,
      (decide ((o : ℤ) ≠ v)) = decide (o ≠ v.toNat) := by
    intro o _
    simp only [decide_eq_decide]
    omega
  rw [List.filter_congr hcast,
    length_filter_ne_range cellSize.toNat v.toNat (by omega)]
  omega

lemma distList_snd_mem_iff (vertices : List ℚ) (start cellSize v : ℤ) (o : ℤ) :
    (∃ p ∈ distList vertices start cellSize v, p.2 = o) ↔
      (0 ≤ o ∧ o < cellSize ∧ o ≠ v) := by
  unfold distList
  constructor
  · rintro ⟨p, hp, rfl⟩
    rcases List.mem_map.mp hp with ⟨o', ho', rfl⟩
    rcases List.mem_filter.mp ho' with ⟨hr, hne⟩
    have hlt := List.mem_range.mp hr
    simp only [decide_eq_true_eq] at hne
    exact ⟨by omega, by omega, hne⟩
  · rintro ⟨h0, hlt, hne⟩
    refine ⟨_, List.mem_map.mpr ⟨o.toNat, ?_, rfl⟩, ?_⟩
    · refine List.mem_filter.mpr ⟨List.mem_range.mpr (by omega), ?_⟩
      simp only [decide_eq_true_eq]
      omega
    · show ((o.toNat : ℤ)) = o
      omega

lemma distList_mem_spec (vertices : List ℚ) (start cellSize v : ℤ) (p : ℚ × ℤ)
    (hp : p ∈ distList vertices start cellSize v) :
    p.1 = ((vecAt vertices (start + p.2 * 3)).sub
      (vecAt vertices (start + v * 3))).lengthSquared ∧ p.2 ≠ v := by
  unfold distList at hp
  rcases List.mem_map.mp hp with ⟨o', ho', rfl⟩
  rcases List.mem_filter.mp ho' with ⟨_, hne⟩
  simp only [decide_eq_true_eq] at hne
  exact ⟨rfl, hne⟩

lemma selectNeighbors_length (vertices : List ℚ)
    (start cellSize maxNeighbors v : ℤ) :
    (selectNeighbors vertices start cellSize maxNeighbors v).length =
      min (numNeighborsOf maxNeighbors
        (distList vertices start cellSize v)).toNat
        (distList vertices start cellSize v).length := by
  unfold selectNeighbors
  rw [List.length_take, List.length_insertionSort]

lemma selectNeighbors_sorted (vertices : List ℚ)
    (start cellSize maxNeighbors v : ℤ) :
    (selectNeighbors vertices start cellSize maxNeighbors v).Pairwise
      (fun p q : ℚ × ℤ => p.1 ≤ q.1) := by
  unfold selectNeighbors
  refine List.Pairwise.imp ?_
    ((List.sorted_insertionSort pairLe _).sublist (List.take_sublist _ _))
  rintro p q (h | ⟨he, _⟩)
  · exact le_of_lt h
  · exact le_of_eq he

lemma selectNeighbors_subset (vertices : List ℚ)
    (start cellSize maxNeighbors v : ℤ) (p : ℚ × ℤ)
    (hp : p ∈ selectNeighbors vertices start cellSize maxNeighbors v) :
    p ∈ distList vertices start cellSize v := by
  unfold selectNeighbors at hp
  exact (List.mem_insertionSort pairLe).mp (List.mem_of_mem_take hp)

lemma selectNeighbors_minimal (vertices : List ℚ)
    (start cellSize maxNeighbors v : ℤ) (p q : ℚ × ℤ)
    (hp : p ∈ selectNeighbors vertices start cellSize maxNeighbors v)
    (hq : q ∈ distList vertices start cellSize v)
    (hq' : q ∉ selectNeighbors vertices start cellSize maxNeighbors v) :
    p.1 ≤ q.1 := by
  unfold selectNeighbors at hp hq'
  have hsor : List.Pairwise pairLe
      (List.insertionSort pairLe (distList vertices start cellSize v)) :=
    List.sorted_insertionSort pairLe _
  have hqL : q ∈ List.insertionSort pairLe (distList vertices start cellSize v) :=
    (List.mem_insertionSort pairLe).mpr hq
  set m := (numNeighborsOf maxNeighbors (distList vertices start cellSize v)).toNat
  set L := List.insertionSort pairLe (distList vertices start cellSize v)
  have hsplit : q ∈ L.take m ∨ q ∈ L.drop m := by
    rw [← List.mem_append, List.take_append_drop]
    exact hqL
  rcases hsplit with h | h
  · exact absurd h hq'
  · have hpair : List.Pairwise pairLe (L.take m ++ L.drop m) := by
      rw [List.take_append_drop]
      exact hsor
    have := (List.pairwise_append.mp hpair).2.2 p hp q h
    rcases this with h' | ⟨he, _⟩
    · exact le_of_lt h'
    · exact le_of_eq he

/-! ### Score bounds -/

lemma pairCountAux_le_choose (acute : Vec3 → Vec3 → Bool) :
    ∀ L : List Vec3, pairCountAux acute L ≤ L.length.choose 2
  | [] => Nat.zero_le _
  | a :: rest => by
    have ih := pairCountAux_le_choose acute rest
    have hc : rest.countP (fun b => acute a b) ≤ rest.length :=
      List.countP_le_length _
    show rest.countP (fun b => acute a b) + pairCountAux acute rest ≤ _
    rw [List.length_cons, Nat.choose_succ_succ, Nat.choose_one_right]
    simp only [show Nat.succ 1 = 2 from rfl]
    omega

lemma neighborVecs_length_le (vertices : List ℚ)
    (start cellSize maxNeighbors v : ℤ) :
    (neighborVecs vertices start cellSize maxNeighbors v).length ≤
      maxNeighbors.toNat := by
  unfold neighborVecs
  rw [List.length_map, selectNeighbors_length]
  unfold numNeighborsOf
  omega

lemma cellAcuteCount_le (acute : Vec3 → Vec3 → Bool) (vertices : List ℚ)
    (start cellSize maxNeighbors : ℤ) :
    cellAcuteCount acute vertices start cellSize maxNeighbors ≤
      cellSize.toNat * (maxNeighbors.toNat.choose 2) := by
  unfold cellAcuteCount
  have hbound : ∀ x ∈ (List.range cellSize.toNat).map
      (fun (v : ℕ) => pairCountAux acute
        (neighborVecs vertices start cellSize maxNeighbors (v : ℤ))),
      x ≤ maxNeighbors.toNat.choose 2 := by
    intro x hx
    rcases List.mem_map.mp hx with ⟨v, _, rfl⟩
    calc pairCountAux acute (neighborVecs vertices start cellSize maxNeighbors (v : ℤ))
        ≤ (neighborVecs vertices start cellSize maxNeighbors (v : ℤ)).length.choose 2 :=
          pairCountAux_le_choose acute _
      _ ≤ maxNeighbors.toNat.choose 2 :=
          Nat.choose_le_choose 2 (neighborVecs_length_le _ _ _ _ _)
  calc ((List.range cellSize.toNat).map _).sum
      ≤ ((List.range cellSize.toNat).map
          (fun (v : ℕ) => pairCountAux acute
            (neighborVecs vertices start cellSize maxNeighbors (v : ℤ)))).length •
          (maxNeighbors.toNat.choose 2) := List.sum_le_card_nsmul _ _ hbound
    _ = cellSize.toNat * (maxNeighbors.toNat.choose 2) := by
        rw [List.length_map, List.length_range, smul_eq_mul]

lemma choose_two_cast_le (maxNeighbors : ℤ) (hK : 0 ≤ maxNeighbors) :
    ((maxNeighbors.toNat.choose 2 : ℕ) : ℤ) ≤
      maxNeighbors * (maxNeighbors - 1) / 2 := by
  rcases eq_or_lt_of_le hK with h | h
  · rw [← h]
    norm_num
  · have h1 : 1 ≤ maxNeighbors := h
    rw [Nat.choose_two_right, Int.natCast_div]
    have hfac : ((maxNeighbors.toNat - 1 : ℕ) : ℤ) = maxNeighbors - 1 := by omega
    have hmain : ((maxNeighbors.toNat * (maxNeighbors.toNat - 1) : ℕ) : ℤ) =
        maxNeighbors * (maxNeighbors - 1) := by
      push_cast
      rw [Int.toNat_of_nonneg hK, hfac]
    rw [hmain]
    norm_num

lemma scoreCell_nonneg (acute : Vec3 → Vec3 → Bool) (vertices : List ℚ)
    (start endIdx maxNeighbors : ℤ) :
    0 ≤ scoreCell acute vertices start endIdx maxNeighbors := by
  unfold scoreCell
  split_ifs with h
  · exact le_refl 0
  · exact Int.ediv_nonneg (Int.natCast_nonneg _) (by omega)

lemma scoreCell_le (acute : Vec3 → Vec3 → Bool) (vertices : List ℚ)
    (start endIdx maxNeighbors : ℤ) (hK : 0 ≤ maxNeighbors) :
    scoreCell acute vertices start endIdx maxNeighbors ≤
      maxNeighbors * (maxNeighbors - 1) / 2 := by
  have hKK : 0 ≤ maxNeighbors * (maxNeighbors - 1) / 2 := by
    rcases eq_or_lt_of_le hK with h | h
    · rw [← h]
      norm_num
    · refine Int.ediv_nonneg (mul_nonneg hK (by omega)) (by norm_num)
  unfold scoreCell
  split_ifs with h
  · exact hKK
  · set cs := (endIdx - start) / 3 with hcs
    have hcs4 : 4 ≤ cs := by omega
    have hcount := cellAcuteCount_le acute vertices start cs maxNeighbors
    set B := maxNeighbors.toNat.choose 2 with hB
    have hcast : (cellAcuteCount acute vertices start cs maxNeighbors : ℤ) ≤
        cs * (B : ℤ) := by
      have h1 : ((cellAcuteCount acute vertices start cs maxNeighbors : ℕ) : ℤ) ≤
          ((cs.toNat * B : ℕ) : ℤ) := by exact_mod_cast hcount
      calc (cellAcuteCount acute vertices start cs maxNeighbors : ℤ)
          ≤ ((cs.toNat * B : ℕ) : ℤ) := h1
        _ = cs * (B : ℤ) := by
            push_cast
            rw [Int.toNat_of_nonneg (by omega)]
    calc (cellAcuteCount acute vertices start cs maxNeighbors : ℤ) / cs
        ≤ (cs * (B : ℤ)) / cs := Int.ediv_le_ediv (by omega) hcast
      _ = (B : ℤ) := Int.mul_ediv_cancel_left _ (by omega)
      _ ≤ maxNeighbors * (maxNeighbors - 1) / 2 := choose_two_cast_le maxNeighbors hK

/-! ### Concrete values of `calculateAngle` -/

lemma calculateAngle_perp :
    calculateAngle ⟨1, 0, 0⟩ ⟨0, 1, 0⟩ = Real.pi / 2 := by
  unfold calculateAngle
  rw [if_neg (by norm_num [Vec3.lengthSquared])]
  have hc : clampedCos ⟨1, 0, 0⟩ ⟨0, 1, 0⟩ = 0 := by
    unfold clampedCos
    norm_num [Vec3.dot, Vec3.lengthSquared]
  rw [hc, Real.arccos_zero]

lemma sqrt_two_le_two : Real.sqrt 2 ≤ 2 := by
  have h := Real.sq_sqrt (by norm_num : (0:ℝ) ≤ 2)
  nlinarith [Real.sqrt_nonneg 2]

lemma calculateAngle_diag :
    calculateAngle ⟨1, 0, 0⟩ ⟨1, 1, 0⟩ = Real.pi / 4 := by
  unfold calculateAngle
  rw [if_neg (by norm_num [Vec3.lengthSquared])]
  have hs2 : (0:ℝ) < Real.sqrt 2 := Real.sqrt_pos.mpr (by norm_num)
  have hc : clampedCos ⟨1, 0, 0⟩ ⟨1, 1, 0⟩ = Real.sqrt 2 / 2 := by
    unfold clampedCos
    have hd : ((Vec3.dot ⟨1, 0, 0⟩ ⟨1, 1, 0⟩ : ℚ) : ℝ) = 1 := by
      norm_num [Vec3.dot]
    have hl : ((Vec3.lengthSquared (⟨1, 0, 0⟩ : Vec3) : ℚ) : ℝ) *
        ((Vec3.lengthSquared (⟨1, 1, 0⟩ : Vec3) : ℚ) : ℝ) = 2 := by
      norm_num [Vec3.lengthSquared]
    rw [hd, hl]
    have hval : (1:ℝ) / Real.sqrt 2 = Real.sqrt 2 / 2 := by
      rw [div_eq_div_iff hs2.ne' (by norm_num), one_mul,
        Real.mul_self_sqrt (by norm_num)]
    rw [hval]
    have h1 : Real.sqrt 2 / 2 ≤ 1 := by linarith [sqrt_two_le_two]
    have h2 : (0:ℝ) ≤ Real.sqrt 2 / 2 := by positivity
    rw [min_eq_right h1, max_eq_right (by linarith)]
  rw [hc]
  rw [show Real.sqrt 2 / 2 = Real.cos (Real.pi / 4) from Real.cos_pi_div_four.symm]
  exact Real.arccos_cos (by positivity) (by linarith [Real.pi_pos])

/-! ### Claims -/

/-- Claim C1: the incremental update is claimed to overwrite each in-range
changed cell with the value the full pass would compute by the identical
per-cell algorithm.  The source's per-cell recomputation is an unimplemented
stub (`acuteAngles` stays 0), so on the unit-square cell, whose full-pass
score is 2, the update overwrites the previous score with 0 instead: the code
contradicts the claim (and its own comment `// Same calculation as above`). -/
theorem claim1_incremental_stub_bug :
    updateCellAcuteness squareVerts [0, 12] [0] [2] = [0] ∧
    calculateCellAcuteness squareVerts [0, 12] 6 = [2] :=
  ⟨by decide, calc_square⟩

/-- Claim C2: for every cell with at least 4 vertices the full pass computes
`floor(T / cellSize)` by integer division, where `T` is the total over the
cell's vertices of the number of unordered pairs of selected neighbors
classified acute (never pairing across different center vertices). -/
theorem claim2_full_pass_score_formula (vertices : List ℚ)
    (cellIndices : List ℤ) (maxNeighbors : ℤ) (i : ℕ)
    (hi : i < cellIndices.length - 1)
    (hsize : 4 ≤ (cellIndices.getD (i + 1) 0 - cellIndices.getD i 0) / 3) :
    (calculateCellAcuteness vertices cellIndices maxNeighbors)[i]? =
      some ((specCellTotal isAcuteAngleTest vertices (cellIndices.getD i 0)
          ((cellIndices.getD (i + 1) 0 - cellIndices.getD i 0) / 3) maxNeighbors : ℤ) /
        ((cellIndices.getD (i + 1) 0 - cellIndices.getD i 0) / 3)) ∧
    ((specCellTotal isAcuteAngleTest vertices (cellIndices.getD i 0)
        ((cellIndices.getD (i + 1) 0 - cellIndices.getD i 0) / 3) maxNeighbors : ℤ) /
      ((cellIndices.getD (i + 1) 0 - cellIndices.getD i 0) / 3) =
      ⌊(specCellTotal isAcuteAngleTest vertices (cellIndices.getD i 0)
          ((cellIndices.getD (i + 1) 0 - cellIndices.getD i 0) / 3) maxNeighbors : ℚ) /
        (((cellIndices.getD (i + 1) 0 - cellIndices.getD i 0) / 3 : ℤ) : ℚ)⌋) := by
  constructor
  · unfold calculateCellAcuteness
    rw [calculateCellAcutenessW_getElem _ _ _ _ _ hi]
    unfold scoreCell
    rw [if_neg (not_lt.mpr hsize), cellAcuteCount_eq_specCellTotal]
  · set T := specCellTotal isAcuteAngleTest vertices (cellIndices.getD i 0)
      ((cellIndices.getD (i + 1) 0 - cellIndices.getD i 0) / 3) maxNeighbors with hT
    set n := (cellIndices.getD (i + 1) 0 - cellIndices.getD i 0) / 3 with hn
    have hd : n = ((n.toNat : ℕ) : ℤ) := (Int.toNat_of_nonneg (by omega)).symm
    rw [hd]
    have := Rat.floor_intCast_div_natCast (T : ℤ) n.toNat
    rw [← this]
    push_cast
    ring_nf

/-- Witness for C2 at the unit-square cell. -/
theorem claim2_witness :
    (0 : ℕ) < ([0, 12] : List ℤ).length - 1 ∧
    (4 : ℤ) ≤ (12 - 0) / 3 ∧
    ((calculateCellAcuteness squareVerts [0, 12] 6)[0]? =
      some ((specCellTotal isAcuteAngleTest squareVerts 0 ((12 - 0) / 3) 6 : ℤ) /
        ((12 - 0) / 3)) ∧
    ((specCellTotal isAcuteAngleTest squareVerts 0 ((12 - 0) / 3) 6 : ℤ) /
        ((12 - 0) / 3) =
      ⌊(specCellTotal isAcuteAngleTest squareVerts 0 ((12 - 0) / 3) 6 : ℚ) /
        ((((12 - 0) / 3 : ℤ)) : ℚ)⌋)) :=
  ⟨by decide, by decide,
    claim2_full_pass_score_formula squareVerts [0, 12] 6 0 (by decide) (by decide)⟩

/-- Claim C3: a cell with fewer than 4 vertices scores exactly 0, in the full
pass and through the incremental update when listed as changed, for every
vertex buffer and every acute test (so no neighbor search or angle
computation can influence the result). -/
theorem claim3_degenerate_cell_zero (acute : Vec3 → Vec3 → Bool)
    (vertices : List ℚ) (cellIndices : List ℤ) (maxNeighbors : ℤ)
    (changedCells previousScores : List ℤ) (i : ℕ)
    (hi : i < cellIndices.length - 1)
    (hlen : cellIndices.length ≤ 2 ^ 63)
    (hsize : (cellIndices.getD (i + 1) 0 - cellIndices.getD i 0) / 3 < 4)
    (hmem : (i : ℤ) ∈ changedCells)
    (hprev : i < previousScores.length) :
    (calculateCellAcutenessW acute vertices cellIndices maxNeighbors)[i]? = some 0 ∧
    (calculateCellAcuteness vertices cellIndices maxNeighbors)[i]? = some 0 ∧
    (updateCellAcuteness vertices cellIndices changedCells previousScores)[i]? =
      some 0 := by
  have hfull : ∀ ac : Vec3 → Vec3 → Bool,
      (calculateCellAcutenessW ac vertices cellIndices maxNeighbors)[i]? = some 0 := by
    intro ac
    rw [calculateCellAcutenessW_getElem _ _ _ _ _ hi]
    unfold scoreCell
    rw [if_pos hsize]
  refine ⟨hfull acute, hfull isAcuteAngleTest, ?_⟩
  refine update_writes_zero vertices cellIndices changedCells previousScores i
    hmem ?_ hprev
  unfold sizeTPred toSizeT
  omega

/-- Witness for C3: a 3-vertex first cell, changed list `[0]`, arbitrary
previous scores `[7, 7]`, and a classifier that would call every pair acute
(showing no angle computation can influence the result). -/
theorem claim3_witness :
    (0 : ℕ) < ([0, 9, 21] : List ℤ).length - 1 ∧
    ([0, 9, 21] : List ℤ).length ≤ 2 ^ 63 ∧
    ((9 : ℤ) - 0) / 3 < 4 ∧
    ((0 : ℕ) : ℤ) ∈ ([0] : List ℤ) ∧
    (0 : ℕ) < ([7, 7] : List ℤ).length ∧
    ((calculateCellAcutenessW (fun _ _ => true) [] [0, 9, 21] 6)[0]? = some 0 ∧
      (calculateCellAcuteness [] [0, 9, 21] 6)[0]? = some 0 ∧
      (updateCellAcuteness [] [0, 9, 21] [0] [7, 7])[0]? = some 0) :=
  ⟨by decide, by decide, by decide, by decide, by decide,
    claim3_degenerate_cell_zero (fun _ _ => true) [] [0, 9, 21] 6 [0] [7, 7] 0
      (by decide) (by decide) (by decide) (by decide) (by decide)⟩

/-- Claim C4: every changed-cell index failing the (unsigned) range check
`cellIdx >= cellIndices.size() - 1` is silently skipped without touching the
score table: its iteration is the identity on the table, so in any changed
list (also one mixing in-range and out-of-range indices) the out-of-range
entries can be dropped without changing the result, and a list of only
out-of-range entries leaves the table untouched — in particular scenario C
(2-cell table `[2, 5]`, changed list `[7]`) returns `[2, 5]` unchanged. -/
theorem claim4_out_of_range_skipped (vertices : List ℚ) (cellIndices : List ℤ)
    (changedCells previousScores : List ℤ) :
    (∀ (scores : List ℤ) (c : ℤ), sizeTPred cellIndices.length ≤ toSizeT c →
      updateStep vertices cellIndices scores c = scores) ∧
    updateCellAcuteness vertices cellIndices changedCells previousScores =
      updateCellAcuteness vertices cellIndices
        (changedCells.filter
          (fun c => decide (toSizeT c < sizeTPred cellIndices.length)))
        previousScores ∧
    ((∀ c ∈ changedCells, sizeTPred cellIndices.length ≤ toSizeT c) →
      updateCellAcuteness vertices cellIndices changedCells previousScores =
        previousScores) := by
  refine ⟨fun scores c h => updateStep_skip vertices cellIndices scores c h,
    ?_, fun h =>
      updateCellAcuteness_skip_all vertices cellIndices changedCells
        previousScores h⟩
  refine update_filter_skipped vertices cellIndices _ changedCells
    previousScores ?_
  intro c _ hc
  simp only [decide_eq_false_iff_not, not_lt] at hc
  exact hc

/-- Witness for C4, instantiated to the spec's scenario C, including a mixed
changed list containing both an in-range and an out-of-range index. -/
theorem claim4_witness :
    sizeTPred ([0, 12, 24] : List ℤ).length ≤ toSizeT 7 ∧
    updateStep [] [0, 12, 24] [2, 5] 7 = [2, 5] ∧
    updateCellAcuteness [] [0, 12, 24] [0, 7] [2, 5] =
      updateCellAcuteness [] [0, 12, 24]
        (([0, 7] : List ℤ).filter
          (fun c => decide (toSizeT c < sizeTPred ([0, 12, 24] : List ℤ).length)))
        [2, 5] ∧
    updateCellAcuteness [] [0, 12, 24] [7] [2, 5] = [2, 5] := by
  have hmixed := claim4_out_of_range_skipped [] [0, 12, 24] [0, 7] [2, 5]
  have hpure := claim4_out_of_range_skipped [] [0, 12, 24] [7] [2, 5]
  exact ⟨by decide, hmixed.1 [2, 5] 7 (by decide), hmixed.2.1,
    hpure.2.2 (by decide)⟩

/-- Claim C5: the acute threshold is strict at the constant `HALF_PI`: a pair
whose computed angle is exactly `π/2` is not counted acute, and a pair whose
computed angle is `π/2 - ε` is counted acute for every `ε` of at least one
single-precision ulp at this magnitude (`2⁻²³`, the floating-point
resolution). -/
theorem claim5_strict_threshold (v1 v2 : Vec3) :
    (calculateAngle v1 v2 = Real.pi / 2 → isAcuteAngleTest v1 v2 = false) ∧
    (∀ ε : ℝ, 1 / 2 ^ 23 ≤ ε → calculateAngle v1 v2 = Real.pi / 2 - ε →
      isAcuteAngleTest v1 v2 = true) := by
  constructor
  · intro h
    rw [isAcuteAngleTest_false_iff, h]
    exact HALF_PI_lt_pi_div_two.le
  · intro ε hε h
    rw [isAcuteAngleTest_true_iff, h]
    have := pi_div_two_sub_HALF_PI_lt
    linarith

/-- Witness for C5: the perpendicular pair (angle exactly `π/2`) is rejected,
the 45-degree pair (`ε = π/4`) is accepted. -/
theorem claim5_witness :
    (calculateAngle ⟨1, 0, 0⟩ ⟨0, 1, 0⟩ = Real.pi / 2 ∧
      isAcuteAngleTest ⟨1, 0, 0⟩ ⟨0, 1, 0⟩ = false) ∧
    ((1 : ℝ) / 2 ^ 23 ≤ Real.pi / 4 ∧
      calculateAngle ⟨1, 0, 0⟩ ⟨1, 1, 0⟩ = Real.pi / 2 - Real.pi / 4 ∧
      isAcuteAngleTest ⟨1, 0, 0⟩ ⟨1, 1, 0⟩ = true) := by
  have hq : (1 : ℝ) / 2 ^ 23 ≤ Real.pi / 4 := by
    have := Real.pi_gt_three
    norm_num
    linarith
  have hd : calculateAngle ⟨1, 0, 0⟩ ⟨1, 1, 0⟩ = Real.pi / 2 - Real.pi / 4 := by
    rw [calculateAngle_diag]
    ring
  exact ⟨⟨calculateAngle_perp,
      (claim5_strict_threshold _ _).1 calculateAngle_perp⟩,
    hq, hd, (claim5_strict_threshold _ _).2 (Real.pi / 4) hq hd⟩

/-- Claim C6: a pair containing a zero-length displacement vector gets angle 0
and therefore counts as acute; for all other pairs the cosine
`dot / sqrt(len1Sq * len2Sq)` is clamped to `[-1, 1]` before the inverse
cosine is taken. -/
theorem claim6_angle_degenerate_and_clamp (v1 v2 : Vec3) :
    ((v1.lengthSquared = 0 ∨ v2.lengthSquared = 0) →
      calculateAngle v1 v2 = 0 ∧ isAcuteAngleTest v1 v2 = true) ∧
    (¬(v1.lengthSquared = 0 ∨ v2.lengthSquared = 0) →
      -1 ≤ clampedCos v1 v2 ∧ clampedCos v1 v2 ≤ 1 ∧
      calculateAngle v1 v2 = Real.arccos (clampedCos v1 v2)) := by
  constructor
  · intro h
    have hz : calculateAngle v1 v2 = 0 := by
      unfold calculateAngle
      rw [if_pos h]
    refine ⟨hz, ?_⟩
    rw [isAcuteAngleTest_true_iff, hz]
    unfold HALF_PI
    norm_num
  · intro h
    refine ⟨neg_one_le_clampedCos v1 v2, clampedCos_le_one v1 v2, ?_⟩
    unfold calculateAngle
    rw [if_neg h]

/-- Witness for C6: the zero vector against (1,0,0), and the nondegenerate
pair (1,0,0), (1,1,0). -/
theorem claim6_witness :
    (calculateAngle ⟨0, 0, 0⟩ ⟨1, 0, 0⟩ = 0 ∧
      isAcuteAngleTest ⟨0, 0, 0⟩ ⟨1, 0, 0⟩ = true) ∧
    (-1 ≤ clampedCos ⟨1, 0, 0⟩ ⟨1, 1, 0⟩ ∧
      clampedCos ⟨1, 0, 0⟩ ⟨1, 1, 0⟩ ≤ 1 ∧
      calculateAngle ⟨1, 0, 0⟩ ⟨1, 1, 0⟩ =
        Real.arccos (clampedCos ⟨1, 0, 0⟩ ⟨1, 1, 0⟩)) :=
  ⟨(claim6_angle_degenerate_and_clamp _ _).1
      (Or.inl (by norm_num [Vec3.lengthSquared])),
    (claim6_angle_degenerate_and_clamp _ _).2
      (by norm_num [Vec3.lengthSquared])⟩

/-- Claim C7: for a center vertex `v` of a cell of size `n` and `K ≥ 0`, the
candidate list ranges over exactly the other vertices of the same cell (never
`v`), carrying squared Euclidean distances, and the selection keeps the
`min(K, n-1)` nearest candidates ordered nearest first; with fewer than `K+1`
vertices all others are selected. -/
theorem claim7_neighbor_selection (vertices : List ℚ)
    (start cellSize maxNeighbors v : ℤ) (hK : 0 ≤ maxNeighbors)
    (hv0 : 0 ≤ v) (hv : v < cellSize) :
    (∀ o : ℤ, (∃ p ∈ distList vertices start cellSize v, p.2 = o) ↔
      (0 ≤ o ∧ o < cellSize ∧ o ≠ v)) ∧
    (∀ p ∈ distList vertices start cellSize v,
      p.1 = ((vecAt vertices (start + p.2 * 3)).sub
        (vecAt vertices (start + v * 3))).lengthSquared ∧ p.2 ≠ v) ∧
    (distList vertices start cellSize v).length = (cellSize - 1).toNat ∧
    (selectNeighbors vertices start cellSize maxNeighbors v).length =
      (min maxNeighbors (cellSize - 1)).toNat ∧
    (selectNeighbors vertices start cellSize maxNeighbors v).Pairwise
      (fun p q : ℚ × ℤ => p.1 ≤ q.1) ∧
    (∀ p ∈ selectNeighbors vertices start cellSize maxNeighbors v,
      p ∈ distList vertices start cellSize v) ∧
    (∀ p ∈ selectNeighbors vertices start cellSize maxNeighbors v,
      ∀ q ∈ distList vertices start cellSize v,
        q ∉ selectNeighbors vertices start cellSize maxNeighbors v →
        p.1 ≤ q.1) ∧
    (cellSize - 1 ≤ maxNeighbors →
      (selectNeighbors vertices start cellSize maxNeighbors v).length =
        (cellSize - 1).toNat) := by
  have hdl := distList_length vertices start cellSize v hv0 hv
  have hsel := selectNeighbors_length vertices start cellSize maxNeighbors v
  unfold numNeighborsOf at hsel
  rw [hdl] at hsel
  have hlen : (selectNeighbors vertices start cellSize maxNeighbors v).length =
      (min maxNeighbors (cellSize - 1)).toNat := by
    rw [hsel]
    omega
  refine ⟨fun o => distList_snd_mem_iff vertices start cellSize v o,
    fun p hp => distList_mem_spec vertices start cellSize v p hp,
    hdl, hlen,
    selectNeighbors_sorted vertices start cellSize maxNeighbors v,
    fun p hp => selectNeighbors_subset vertices start cellSize maxNeighbors v p hp,
    fun p hp q hq hq' =>
      selectNeighbors_minimal vertices start cellSize maxNeighbors v p q hp hq hq',
    fun hfew => ?_⟩
  rw [hlen]
  omega

/-- Witness for C7, at the unit-square cell with center vertex 0 and K = 6. -/
theorem claim7_witness :
    (0 : ℤ) ≤ 6 ∧ (0 : ℤ) ≤ 0 ∧ (0 : ℤ) < 4 ∧
    ((∀ o : ℤ, (∃ p ∈ distList squareVerts 0 4 0, p.2 = o) ↔
      (0 ≤ o ∧ o < 4 ∧ o ≠ 0)) ∧
    (∀ p ∈ distList squareVerts 0 4 0,
      p.1 = ((vecAt squareVerts (0 + p.2 * 3)).sub
        (vecAt squareVerts (0 + 0 * 3))).lengthSquared ∧ p.2 ≠ 0) ∧
    (distList squareVerts 0 4 0).length = ((4 : ℤ) - 1).toNat ∧
    (selectNeighbors squareVerts 0 4 6 0).length = (min (6 : ℤ) (4 - 1)).toNat ∧
    (selectNeighbors squareVerts 0 4 6 0).Pairwise
      (fun p q : ℚ × ℤ => p.1 ≤ q.1) ∧
    (∀ p ∈ selectNeighbors squareVerts 0 4 6 0,
      p ∈ distList squareVerts 0 4 0) ∧
    (∀ p ∈ selectNeighbors squareVerts 0 4 6 0,
      ∀ q ∈ distList squareVerts 0 4 0,
        q ∉ selectNeighbors squareVerts 0 4 6 0 → p.1 ≤ q.1) ∧
    ((4 : ℤ) - 1 ≤ 6 →
      (selectNeighbors squareVerts 0 4 6 0).length = ((4 : ℤ) - 1).toNat)) :=
  ⟨by decide, by decide, by decide,
    claim7_neighbor_selection squareVerts 0 4 6 0 (by decide) (by decide) (by decide)⟩

/-- Claim C8: scenario A.  On the single unit-square cell with K = 6 the full
pass scores 2: each of the four vertices contributes exactly 2 acute pairs
among its 3 neighbor pairs, total 8, divided by cell size 4. -/
theorem claim8_unit_square :
    calculateCellAcuteness squareVerts [0, 12] 6 = [2] ∧
    cellAcuteCount isAcuteAngleTest squareVerts 0 4 6 = 8 ∧
    pairCountAux isAcuteAngleTest (neighborVecs squareVerts 0 4 6 0) = 2 ∧
    pairCountAux isAcuteAngleTest (neighborVecs squareVerts 0 4 6 1) = 2 ∧
    pairCountAux isAcuteAngleTest (neighborVecs squareVerts 0 4 6 2) = 2 ∧
    pairCountAux isAcuteAngleTest (neighborVecs squareVerts 0 4 6 3) = 2 :=
  ⟨calc_square, cellAcuteCount_sq, pairCount_sq_0, pairCount_sq_1,
    pairCount_sq_2, pairCount_sq_3⟩

/-- Claim C9: with K ≥ 0, every full-pass score lies in `[0, K(K-1)/2]` (15
for the default K = 6). -/
theorem claim9_score_bounds (vertices : List ℚ) (cellIndices : List ℤ)
    (maxNeighbors : ℤ) (hK : 0 ≤ maxNeighbors) :
    ∀ s ∈ calculateCellAcuteness vertices cellIndices maxNeighbors,
      0 ≤ s ∧ s ≤ maxNeighbors * (maxNeighbors - 1) / 2 := by
  intro s hs
  unfold calculateCellAcuteness calculateCellAcutenessW at hs
  rcases List.mem_map.mp hs with ⟨i, _, rfl⟩
  exact ⟨scoreCell_nonneg _ _ _ _ _, scoreCell_le _ _ _ _ _ hK⟩

/-- Witness for C9 at a 1-cell table whose cell is degenerate. -/
theorem claim9_witness :
    (0 : ℤ) ≤ 6 ∧
    ∀ s ∈ calculateCellAcuteness [] [0, 3] 6,
      0 ≤ s ∧ s ≤ 6 * (6 - 1) / 2 :=
  ⟨by decide, claim9_score_bounds [] [0, 3] 6 (by decide)⟩

/-- Claim C10: a negative (32-bit) changed-cell index is converted to a huge
unsigned value by the implicit int-to-size_t conversion in the range check, so
it always satisfies the skip condition and its iteration never reaches the
indexing or the score write (for any table of 1 to 2^63 offsets); hence in any
changed list — also one mixing negative and in-range indices — the negative
entries can be dropped without changing the result. -/
theorem claim10_negative_index_skipped (vertices : List ℚ)
    (cellIndices : List ℤ) (changedCells previousScores : List ℤ)
    (hlen1 : 1 ≤ cellIndices.length)
    (hlen : cellIndices.length ≤ 2 ^ 63)
    (hint32 : ∀ c ∈ changedCells, -(2 : ℤ) ^ 31 ≤ c) :
    (∀ c : ℤ, -(2 : ℤ) ^ 31 ≤ c → c < 0 →
      sizeTPred cellIndices.length ≤ toSizeT c ∧
      ∀ scores : List ℤ, updateStep vertices cellIndices scores c = scores) ∧
    updateCellAcuteness vertices cellIndices changedCells previousScores =
      updateCellAcuteness vertices cellIndices
        (changedCells.filter (fun c => decide (0 ≤ c))) previousScores := by
  have hskipneg : ∀ c : ℤ, -(2 : ℤ) ^ 31 ≤ c → c < 0 →
      sizeTPred cellIndices.length ≤ toSizeT c := by
    intro c h1 h2
    unfold sizeTPred toSizeT
    omega
  constructor
  · intro c h1 h2
    exact ⟨hskipneg c h1 h2,
      fun scores => updateStep_skip vertices cellIndices scores c
        (hskipneg c h1 h2)⟩
  · refine update_filter_skipped vertices cellIndices _ changedCells
      previousScores ?_
    intro c hc hfalse
    simp only [decide_eq_false_iff_not, not_le] at hfalse
    exact hskipneg c (hint32 c hc) hfalse

/-- Witness for C10: the mixed changed list `[-1, 0]` on a 1-cell table; the
negative entry satisfies the skip condition, its iteration is the identity,
and dropping it does not change the update's result. -/
theorem claim10_witness :
    1 ≤ ([0, 12] : List ℤ).length ∧ ([0, 12] : List ℤ).length ≤ 2 ^ 63 ∧
    (∀ c ∈ ([-1, 0] : List ℤ), -(2 : ℤ) ^ 31 ≤ c) ∧
    (sizeTPred ([0, 12] : List ℤ).length ≤ toSizeT (-1) ∧
      updateStep [] [0, 12] [9] (-1) = [9]) ∧
    updateCellAcuteness [] [0, 12] [-1, 0] [9] =
      updateCellAcuteness [] [0, 12]
        (([-1, 0] : List ℤ).filter (fun c => decide (0 ≤ c))) [9] := by
  have h := claim10_negative_index_skipped [] [0, 12] [-1, 0] [9]
    (by decide) (by decide) (by decide)
  exact ⟨by decide, by decide, by decide,
    ⟨(h.1 (-1) (by decide) (by decide)).1,
      (h.1 (-1) (by decide) (by decide)).2 [9]⟩, h.2⟩

end AcutenessWasm
